import Mathlib

/-!
Verification development for the parameter-registry validation pipeline
(`.github/actions/validate_params/validate_params.py`).

The Python program loads a registry (a JSON list of parameter records),
validates it against an external JSON schema, runs a repair pass
(default-access backfill, identifier auto-numbering), runs an invariant
pass (invalid-id recovery, duplicate-id detection), decides overall
pass/fail, and persists repairs only on overall pass.

The embedding below translates the custom-test portion of `main`
(lines 96-171 of the source) into pure Lean functions.  Python values
that can appear in the relevant record fields are modelled by `PyVal`;
a record is a `Param` whose `Option` fields model presence of the
corresponding JSON keys.  Code that can raise an uncaught exception is
modelled in `Except String`; `sys.exit` points are modelled by the
`ExitPoint` marker in the final result.  The external schema validator
is opaque (per the spec) and enters the model only through the boolean
`schemaFailed`.  The artifact emitters run after the modelled pipeline
and do not affect any of the modelled results.
-/

namespace ValidateParams

/-- Sentinel id meaning "unassigned" (source line 9: `ID_UNASSIGNED = 255`). -/
def ID_UNASSIGNED : Int := 255

/-- Python values that can occur in the record fields the pipeline inspects. -/
inductive PyVal where
  | vint (n : Int)
  | vbool (b : Bool)
  | vstr (s : String)
  | vnone
deriving DecidableEq, Repr

/-- One interface's access sub-dictionary (keys `read`, `write`,
`read_option`, `write_option`, `read_auth`, `write_auth`); a `none`
field models an absent key. -/
structure IfaceAccess where
  read : Option Bool := none
  write : Option Bool := none
  read_option : Option Bool := none
  write_option : Option Bool := none
  read_auth : Option Bool := none
  write_auth : Option Bool := none
deriving DecidableEq, Repr

/-- The `access` value of a record: possibly-absent `dry` and `wet`
interface sub-dictionaries. -/
structure Access where
  dry : Option IfaceAccess := none
  wet : Option IfaceAccess := none
deriving DecidableEq, Repr

/-- A parameter record; each `none` models an absent JSON key.  Fields the
validation logic never reads (`representation`, bounds, patterns, ...) are
omitted: they are only echoed by the artifact emitters. -/
structure Param where
  id : Option PyVal := none
  name : Option PyVal := none
  description : Option PyVal := none
  access : Option Access := none
deriving DecidableEq, Repr

/-- A Custom Test Result line (`custom_test_rows` entries).  The
constructor determines both the message shape and the PASS/FAIL column
of the source's `[text, "PASS"|"FAIL"]` pairs. -/
inductive Row where
  | noAccess (id desc : PyVal)                    -- line 109
  | invalidIdHeader                               -- line 120
  | invalidIdMember (id name desc : Option PyVal) -- line 123
  | duplicateId (v : Int)                         -- line 143
  | duplicatePass                                 -- line 147
deriving DecidableEq, Repr

/-- Whether a row's second column is "FAIL" (all rows except the single
PASS row produced at line 147). -/
def Row.isFail : Row → Bool
  | .duplicatePass => false
  | _ => true

/-- The command-line flags that influence the modelled pipeline. -/
structure Flags where
  immediate_exit : Bool := false
  rewrite_default_access : Bool := false
  rewrite_auto_number_id : Bool := false
deriving DecidableEq, Repr

/-- Where the run terminated. -/
inductive ExitPoint where
  | schemaImmediate   -- sys.exit(1) at line 89 (schema failure, immediate mode)
  | customImmediate   -- sys.exit(1) at line 154 (custom failure, immediate mode)
  | overallFail       -- sys.exit(1) at line 166 (consolidated failure)
  | completed         -- fell through to persistence / emitters, exit status 0
deriving DecidableEq, Repr

/-- Observable outcome of a run that did not raise an exception. -/
structure Final where
  exitCode : Nat
  exitedAt : ExitPoint
  customRan : Bool         -- whether the custom-test pass executed at all
  rows : List Row          -- custom_test_rows at termination
  data : List Param        -- the in-memory registry at termination
  ids : List Int           -- the `ids` list used for duplicate analysis
  rewrite : Bool           -- the rewrite_data flag at termination
  persisted : Bool         -- whether line 170 rewrote the registry file
deriving DecidableEq, Repr

/-- Decimal digit run accumulated into a Nat; fails on a non-digit. -/
def digitsAux : List Char → Nat → Option Nat
  | [], acc => some acc
  | c :: cs, acc =>
    if c.isDigit then digitsAux cs (acc * 10 + (c.toNat - 48)) else none

/-- A nonempty decimal digit run. -/
def digitsToNat : List Char → Option Nat
  | [] => none
  | ds => digitsAux ds 0

/-- Python `int(str)`: an optional sign followed by decimal digits
(`int(str)` additionally strips whitespace and underscores, which no
claim depends on). -/
def pyStrToInt (s : String) : Option Int :=
  match s.toList with
  | '-' :: ds => (digitsToNat ds).map (fun n => -(n : Int))
  | '+' :: ds => (digitsToNat ds).map (fun n => (n : Int))
  | ds => (digitsToNat ds).map (fun n => (n : Int))

/-- Python `int(v)`: identity on ints, 0/1 on bools, digit parsing on
strings, failure otherwise (TypeError/ValueError, caught by the bare
`except` at line 118). -/
def pyToInt : PyVal → Option Int
  | .vint n => some n
  | .vbool b => some (if b then 1 else 0)
  | .vstr s => pyStrToInt s
  | .vnone => none

/-- The comprehension `[int(param['id']) for param in data]` (line 117):
fails if any record lacks `id` or its value is not int-convertible. -/
def pyIdsOf (data : List Param) : Option (List Int) :=
  data.mapM (fun p => p.id.bind pyToInt)

/-- The integer value of a record's `id` when it is integer-typed. -/
def idIntOf (p : Param) : Option Int :=
  match p.id with
  | some (.vint n) => some n
  | _ => none

/-- Models `isinstance(param['id'], int)` with the key present (line 122);
Python `bool` is a subclass of `int`. -/
def isCleanParam (p : Param) : Bool :=
  match p.id with
  | some (.vint _) => true
  | some (.vbool _) => true
  | _ => false

/-- Record id is present and integer-typed (not merely int-convertible). -/
def isIntId (p : Param) : Bool :=
  match p.id with
  | some (.vint _) => true
  | _ => false

/-- Record id equals the sentinel. -/
def isSentinel (p : Param) : Bool :=
  decide (p.id = some (.vint ID_UNASSIGNED))

/-- Number of sentinel-valued records. -/
def countSent (data : List Param) : Nat :=
  data.countP (fun p => decide (p.id = some (.vint ID_UNASSIGNED)))

/-- The default access granted by the backfill
(line 106: `{"dry": {"read": True}, "wet": {"read": True}}`). -/
def defaultAccess : Access :=
  { dry := some { read := some true }, wet := some { read := some true } }

/-- The per-record access loop (lines 102-109).  Returns the possibly
backfilled registry, the failure rows appended, and whether the loop set
`rewrite_data`.  Both branches format an f-string that subscripts
`param['id']` and then `param['description']`, so a record lacking
`access` together with either key raises `KeyError`. -/
def accessStep (bf : Bool) : List Param → Except String (List Param × List Row × Bool)
  | [] => .ok ([], [], false)
  | p :: rest =>
    if p.access.isNone then
      match p.id with
      | none => .error "KeyError: id"
      | some i =>
        match p.description with
        | none => .error "KeyError: description"
        | some d =>
          if bf then
            (accessStep bf rest).map fun r =>
              ({ p with access := some defaultAccess } :: r.1, r.2.1, true)
          else
            (accessStep bf rest).map fun r =>
              (p :: r.1, Row.noAccess i d :: r.2.1, r.2.2)
    else
      (accessStep bf rest).map fun r => (p :: r.1, r.2.1, r.2.2)

/-- The recovery loop of lines 121-125: reports each record whose id is
missing or not integer-typed and collects the clean remainder in order. -/
def recoverLoop : List Param → List Row × List Param
  | [] => ([], [])
  | p :: rest =>
    if isCleanParam p then
      ((recoverLoop rest).1, p :: (recoverLoop rest).2)
    else
      (Row.invalidIdMember p.id p.name p.description :: (recoverLoop rest).1,
       (recoverLoop rest).2)

/-- Lines 113-127: try the id comprehension; on failure report, partition
into clean/excluded, and recompute ids from the clean subset.  Returns
(rows appended, cleaned_data, ids, custom_pass). -/
def idsStep (data : List Param) : List Row × List Param × List Int × Bool :=
  match pyIdsOf data with
  | some ids => ([], [], ids, true)
  | none =>
    (Row.invalidIdHeader :: (recoverLoop data).1, (recoverLoop data).2,
     (recoverLoop data).2.filterMap (fun p => p.id.bind pyToInt), false)

/-- Python `max` over a nonempty list (`max(id_counts.keys())`, line 132);
`none` models the ValueError raised on an empty collection. -/
def pyMax : List Int → Option Int
  | [] => none
  | x :: xs =>
    match pyMax xs with
    | none => some x
    | some m => some (max x m)

/-- Models `del id_counts[ID_UNASSIGNED]` (line 131): dropping a key from the
counter is dropping every occurrence from the underlying id list. -/
def delSentinel (ids : List Int) : List Int :=
  ids.filter (fun v => v != ID_UNASSIGNED)

/-- The renumbering loop of lines 135-138, which iterates the FULL
registry (not the cleaned subset): records whose `id` equals the sentinel
receive `last_id` which then increments; a record lacking `id` raises
`KeyError`.  Returns the rewritten registry and the final counter. -/
def numberLoop : List Param → Int → Except String (List Param × Int)
  | [], last => .ok ([], last)
  | p :: rest, last =>
    match p.id with
    | none => .error "KeyError: id"
    | some v =>
      if v = .vint ID_UNASSIGNED then
        (numberLoop rest (last + 1)).map fun r =>
          ({ p with id := some (.vint last) } :: r.1, r.2)
      else
        (numberLoop rest last).map fun r => (p :: r.1, r.2)

/-- Pure version of the renumbering loop, for stating its effect. -/
def numberPure : List Param → Int → List Param
  | [], _ => []
  | p :: rest, last =>
    if p.id = some (.vint ID_UNASSIGNED) then
      { p with id := some (.vint last) } :: numberPure rest (last + 1)
    else
      p :: numberPure rest last

/-- Lines 129-139: if auto-numbering is enabled and the sentinel occurs
among the counted ids, delete the sentinel key from the counter, start at
max-of-remaining + 1, and renumber the registry in place.  Returns the
(possibly rewritten) registry, whether `rewrite_data` was set here, and
the id multiset left in the duplicate-analysis counter. -/
def autoNumberStep (auto : Bool) (data : List Param) (ids : List Int) :
    Except String (List Param × Bool × List Int) :=
  if auto = true ∧ ID_UNASSIGNED ∈ ids then
    match pyMax (delSentinel ids) with
    | none => .error "ValueError: max() arg is an empty sequence"
    | some m =>
      (numberLoop data (m + 1)).map fun r => (r.1, true, delSentinel ids)
  else
    .ok (data, false, ids)

/-- First-occurrence key list of `Counter(ids)`, via a structural fuel so
that concrete runs reduce definitionally. -/
def pyDedupGo : Nat → List Int → List Int
  | 0, _ => []
  | _ + 1, [] => []
  | fuel + 1, x :: xs => x :: pyDedupGo fuel (xs.filter (fun y => y != x))

/-- The keys of `Counter(ids)` in first-occurrence order. -/
def pyDedup (ids : List Int) : List Int :=
  pyDedupGo ids.length ids

/-- Lines 141-147: one FAIL row per counter key with count exceeding one,
then a single PASS row if `custom_pass` is still true and no duplicate was
found.  Returns (rows appended, final custom_pass). -/
def dupStep (counts : List Int) (cp : Bool) : List Row × Bool :=
  let dups := (pyDedup counts).filter (fun v => decide (1 < counts.count v))
  (dups.map Row.duplicateId ++
     (if cp && dups.isEmpty then [Row.duplicatePass] else []),
   cp && dups.isEmpty)

/-- Lines 152-171: the decision gate.  With any FAIL row, immediate mode
exits at line 154, otherwise overall failure exits at line 166; on overall
pass the summary of lines 162-164 runs (`max(ids)` raises on an empty
registry) and line 168 persists exactly when `rewrite_data` is set. -/
def finishRun (flags : Flags) (schemaFailed : Bool) (rows : List Row)
    (data2 : List Param) (ids : List Int) (rw : Bool) : Except String Final :=
  if rows.any Row.isFail then
    if flags.immediate_exit then
      .ok { exitCode := 1, exitedAt := .customImmediate, customRan := true,
            rows := rows, data := data2, ids := ids, rewrite := rw,
            persisted := false }
    else
      .ok { exitCode := 1, exitedAt := .overallFail, customRan := true,
            rows := rows, data := data2, ids := ids, rewrite := rw,
            persisted := false }
  else if schemaFailed then
    .ok { exitCode := 1, exitedAt := .overallFail, customRan := true,
          rows := rows, data := data2, ids := ids, rewrite := rw,
          persisted := false }
  else
    match pyIdsOf data2 with
    | none => .error "TypeError: invalid id in summary"
    | some ids2 =>
      if ids2.isEmpty then .error "ValueError: max() arg is an empty sequence"
      else
        .ok { exitCode := 0, exitedAt := .completed, customRan := true,
              rows := rows, data := data2, ids := ids, rewrite := rw,
              persisted := rw }

/-- The custom-test pass and decision gate (lines 96-171), starting from
the registry as left by the access loop. -/
def pipelineRest (flags : Flags) (schemaFailed : Bool) (data1 : List Param)
    (rowsA : List Row) (rwA : Bool) : Except String Final :=
  match autoNumberStep flags.rewrite_auto_number_id data1
      (idsStep data1).2.2.1 with
  | .error e => .error e
  | .ok t =>
    finishRun flags schemaFailed
      (rowsA ++ (idsStep data1).1 ++ (dupStep t.2.2 (idsStep data1).2.2.2).1)
      t.1 (idsStep data1).2.2.1 (rwA || t.2.1)

/-- The whole modelled run: schema gate (lines 85-91, with the external
validator's verdict supplied as `schemaFailed`), access loop, invariant
pass, decision gate, persistence. -/
def runPipeline (flags : Flags) (schemaFailed : Bool) (data : List Param) :
    Except String Final :=
  if schemaFailed = true ∧ flags.immediate_exit = true then
    .ok { exitCode := 1, exitedAt := .schemaImmediate, customRan := false,
          rows := [], data := data, ids := [], rewrite := false,
          persisted := false }
  else
    match accessStep flags.rewrite_default_access data with
    | .error e => .error e
    | .ok a => pipelineRest flags schemaFailed a.1 a.2.1 a.2.2

/-! ### CSV access-cell encoding (source lines 251-263) -/

/-- The two interfaces of the access matrix. -/
inductive Iface where
  | dry
  | wet
deriving DecidableEq, Repr

/-- The two directions of the access matrix. -/
inductive Dir where
  | read
  | write
deriving DecidableEq, Repr

/-- Models `p.get("access", {}).get(iface, {})` (line 255). -/
def ifaceSub (p : Param) (iface : Iface) : IfaceAccess :=
  match p.access with
  | none => {}
  | some a =>
    match iface with
    | .dry => a.dry.getD {}
    | .wet => a.wet.getD {}

/-- The `dir` entry of an interface sub-dictionary. -/
def dirFlag (ia : IfaceAccess) : Dir → Option Bool
  | .read => ia.read
  | .write => ia.write

/-- The `{dir}_option` entry of an interface sub-dictionary. -/
def dirOption (ia : IfaceAccess) : Dir → Option Bool
  | .read => ia.read_option
  | .write => ia.write_option

/-- The `{dir}_auth` entry of an interface sub-dictionary. -/
def dirAuth (ia : IfaceAccess) : Dir → Option Bool
  | .read => ia.read_auth
  | .write => ia.write_auth

/-- One CSV access cell (lines 252-263).  The cell stays empty unless the
direction is present and truthy under the interface; the composed text
consults only the `dry` sub-dictionary's option/auth flags
(`p['access']['dry']`, lines 256 and 258), and that subscript raises
`KeyError` (modelled by `none`) when the `dry` key is absent. -/
def accessCell (p : Param) (iface : Iface) (dir : Dir) : Option String :=
  if dirFlag (ifaceSub p iface) dir = some true then
    (p.access.bind Access.dry).map fun dryIa =>
      let s :=
        (if (dirOption dryIa dir).getD false then "Opt " else "") ++
          (if (dirAuth dryIa dir).getD false then "Auth" else "")
      if s.isEmpty then "Yes" else s
  else
    some ""

/-! ### Helper notions for stating the auto-numbering properties -/

/-- The consecutive integers `start, start+1, ..., start+k-1`. -/
def intRange (start : Int) (k : Nat) : List Int :=
  (List.range k).map (fun i => start + Int.ofNat i)

/-- The ids that the renumbering loop assigned: for each originally
sentinel-valued position, the integer id now stored there. -/
def assignedIds (orig new : List Param) : List Int :=
  (orig.zip new).filterMap fun pq =>
    if pq.1.id = some (.vint ID_UNASSIGNED) then idIntOf pq.2 else none

/-- What the backfill does to a single record: assign `defaultAccess`
exactly when the `access` key is absent. -/
def fillDefault (p : Param) : Param :=
  if p.access.isNone then { p with access := some defaultAccess } else p

/-- Registry used to witness the auto-numbering claims C1: one ordinary
id 3 and two sentinel records. -/
def regC1 : List Param :=
  [{ id := some (.vint 3) },
   { id := some (.vint ID_UNASSIGNED) },
   { id := some (.vint ID_UNASSIGNED) }]

/-- Registry used to witness claim C10: ids 254 and the sentinel, so the
freshly assigned id is 255 itself. -/
def regC10 : List Param :=
  [{ id := some (.vint 254) },
   { id := some (.vint ID_UNASSIGNED) }]

/-- Registry used by claim C4: the first record lacks `access` (a failing
check) and both records share id 1 (so the later duplicate check also
fails). -/
def regC4 : List Param :=
  [{ id := some (.vint 1), description := some (.vstr "d") },
   { id := some (.vint 1), access := some defaultAccess }]

/-- Registry used to witness claim C5: the first record lacks `access`
(backfill will repair it) and both records share id 1 (the run fails). -/
def regC5 : List Param :=
  [{ id := some (.vint 1), description := some (.vstr "a") },
   { id := some (.vint 1), access := some defaultAccess }]

/-- Outcome of running the pipeline on `regC5` with backfill enabled:
repair applied in memory (rewrite true) but discarded (persisted false)
because the duplicate failure exits with status 1. -/
def finalC5 : Final :=
  { exitCode := 1, exitedAt := .overallFail, customRan := true,
    rows := [.duplicateId 1],
    data := [{ id := some (.vint 1), description := some (.vstr "a"),
               access := some defaultAccess },
             { id := some (.vint 1), access := some defaultAccess }],
    ids := [1, 1], rewrite := true, persisted := false }

/-- Registry used to witness claim C2: two records with the same id 3. -/
def regC2 : List Param :=
  [{ id := some (.vint 3), access := some {} },
   { id := some (.vint 3), access := some {} }]

/-- Registry used to witness claim C6: one record lacking `access`, one
record that already has it. -/
def regC6 : List Param :=
  [{ id := some (.vint 1), description := some (.vstr "a") },
   { id := some (.vint 2), description := some (.vstr "b"),
     access := some defaultAccess }]

/-- Registry used to witness the amended C7: the first record has no id
at all, the second a valid one. -/
def regC7 : List Param :=
  [{ access := some defaultAccess },
   { id := some (.vint 3), access := some defaultAccess }]

/-- Record used to witness claim C9: wet read is granted, and the `dry`
sub-dictionary carries `read_auth`; the wet-read cell is therefore
composed from the dry flags and reads "Auth". -/
def paramC9 : Param :=
  { access := some
      { dry := some { read := some true, read_auth := some true },
        wet := some { read := some true } } }

/-! ### Helper lemmas -/

theorem pyMax_ne_none {a : Int} {l : List Int} : pyMax (a :: l) ≠ none := by
  rw [pyMax]
  cases pyMax l <;> simp

theorem pyMax_le {l : List Int} {m : Int} (h : pyMax l = some m) :
    ∀ x ∈ l, x ≤ m := by
  induction l generalizing m with
  | nil => intro x hx; simp at hx
  | cons a l ih =>
    intro x hx
    rw [pyMax] at h
    rcases List.mem_cons.mp hx with rfl | hx
    · cases hl : pyMax l with
      | none => rw [hl] at h; injection h with h; omega
      | some m0 =>
        rw [hl] at h
        injection h with h
        subst h
        exact le_max_left _ _
    · cases hl : pyMax l with
      | none =>
        exfalso
        cases l with
        | nil => simp at hx
        | cons b t => exact pyMax_ne_none hl
      | some m0 =>
        rw [hl] at h
        injection h with h
        subst h
        exact le_trans (ih hl x hx) (le_max_right _ _)

theorem pyMax_of_ne_nil {l : List Int} (h : l ≠ []) :
    ∃ m, pyMax l = some m := by
  cases l with
  | nil => exact absurd rfl h
  | cons a t =>
    rw [pyMax]
    cases pyMax t <;> exact ⟨_, rfl⟩

theorem intRange_succ (s : Int) (k : Nat) :
    intRange s (k + 1) = s :: intRange (s + 1) k := by
  unfold intRange
  rw [List.range_succ_eq_map, List.map_cons, List.map_map]
  refine congrArg₂ _ (by simp) (List.map_congr_left ?_)
  intro i _
  simp only [Function.comp_apply, Int.ofNat_succ, Int.ofNat_eq_coe]
  ring

theorem mem_intRange {x s : Int} {k : Nat} :
    x ∈ intRange s k ↔ s ≤ x ∧ x < s + (k : Int) := by
  unfold intRange
  simp only [List.mem_map, List.mem_range, Int.ofNat_eq_coe]
  constructor
  · rintro ⟨i, hi, rfl⟩
    omega
  · rintro ⟨h1, h2⟩
    refine ⟨(x - s).toNat, by omega, by omega⟩

theorem pairwise_intRange (s : Int) (k : Nat) :
    (intRange s k).Pairwise (· < ·) := by
  induction k generalizing s with
  | zero => simp [intRange]
  | succ k ih =>
    rw [intRange_succ]
    refine List.Pairwise.cons ?_ (ih (s + 1))
    intro y hy
    have := mem_intRange.mp hy
    omega

theorem count_intRange (s v : Int) (k : Nat) :
    (intRange s k).count v = if s ≤ v ∧ v < s + (k : Int) then 1 else 0 := by
  have hnd : (intRange s k).Nodup :=
    (pairwise_intRange s k).imp (fun h => ne_of_lt h)
  by_cases hv : s ≤ v ∧ v < s + (k : Int)
  · rw [if_pos hv]
    exact List.count_eq_one_of_mem hnd (mem_intRange.mpr hv)
  · rw [if_neg hv]
    exact List.count_eq_zero.mpr (fun hm => hv (mem_intRange.mp hm))

theorem numberLoop_cons_none {p : Param} (rest : List Param) (last : Int)
    (h : p.id = none) :
    numberLoop (p :: rest) last = .error "KeyError: id" := by
  rw [numberLoop, h]

theorem numberLoop_cons_some {p : Param} {v : PyVal} (rest : List Param)
    (last : Int) (h : p.id = some v) :
    numberLoop (p :: rest) last =
      if v = .vint ID_UNASSIGNED then
        (numberLoop rest (last + 1)).map fun r =>
          ({ p with id := some (.vint last) } :: r.1, r.2)
      else
        (numberLoop rest last).map fun r => (p :: r.1, r.2) := by
  rw [numberLoop, h]

theorem countSent_cons_pos {p : Param} (rest : List Param)
    (h : p.id = some (.vint ID_UNASSIGNED)) :
    countSent (p :: rest) = countSent rest + 1 := by
  unfold countSent
  rw [List.countP_cons, if_pos (by simp [h])]

theorem countSent_cons_neg {p : Param} (rest : List Param)
    (h : ¬p.id = some (.vint ID_UNASSIGNED)) :
    countSent (p :: rest) = countSent rest := by
  unfold countSent
  rw [List.countP_cons, if_neg (by simpa using h)]
  omega

theorem numberLoop_eq {data : List Param}
    (h : ∀ p ∈ data, p.id.isSome = true) (last : Int) :
    numberLoop data last =
      .ok (numberPure data last, last + (countSent data : Int)) := by
  induction data generalizing last with
  | nil => simp [numberLoop, numberPure, countSent]
  | cons p rest ih =>
    have hp : p.id.isSome = true := h p (List.mem_cons_self p rest)
    have hrest : ∀ q ∈ rest, q.id.isSome = true :=
      fun q hq => h q (List.mem_cons_of_mem p hq)
    cases hid : p.id with
    | none => rw [hid] at hp; simp at hp
    | some v =>
      rw [numberLoop_cons_some rest last hid]
      by_cases hv : v = .vint ID_UNASSIGNED
      · rw [if_pos hv, ih hrest (last + 1)]
        have hps : p.id = some (.vint ID_UNASSIGNED) := by rw [hid, hv]
        rw [countSent_cons_pos rest hps]
        simp only [Except.map]
        rw [numberPure, if_pos hps]
        congr 1
        push_cast
        ring_nf
      · rw [if_neg hv, ih hrest last]
        have hps : ¬p.id = some (.vint ID_UNASSIGNED) := by
          rw [hid]
          intro hc
          exact hv (Option.some.inj hc)
        rw [countSent_cons_neg rest hps]
        simp only [Except.map]
        rw [numberPure, if_neg hps]

theorem numberPure_length (data : List Param) (last : Int) :
    (numberPure data last).length = data.length := by
  induction data generalizing last with
  | nil => rfl
  | cons p rest ih =>
    rw [numberPure]
    split <;> simp [ih]

theorem assigned_numberPure (data : List Param) (last : Int) :
    assignedIds data (numberPure data last) = intRange last (countSent data) := by
  induction data generalizing last with
  | nil => simp [assignedIds, numberPure, intRange, countSent]
  | cons p rest ih =>
    rw [numberPure]
    by_cases hc : p.id = some (.vint ID_UNASSIGNED)
    · rw [if_pos hc, countSent_cons_pos rest hc, intRange_succ]
      unfold assignedIds
      rw [List.zip_cons_cons, List.filterMap_cons]
      simp only [if_pos hc, idIntOf]
      exact congrArg _ (ih (last + 1))
    · rw [if_neg hc, countSent_cons_neg rest hc]
      unfold assignedIds
      rw [List.zip_cons_cons, List.filterMap_cons]
      simp only [if_neg hc]
      exact ih last

theorem numberPure_keep {data : List Param} {last : Int} :
    ∀ pq ∈ data.zip (numberPure data last),
      pq.1.id ≠ some (.vint ID_UNASSIGNED) → pq.2 = pq.1 := by
  induction data generalizing last with
  | nil => intro pq h; simp [numberPure] at h
  | cons p rest ih =>
    intro pq hmem hne
    rw [numberPure] at hmem
    by_cases hc : p.id = some (.vint ID_UNASSIGNED)
    · rw [if_pos hc, List.zip_cons_cons] at hmem
      rcases List.mem_cons.mp hmem with rfl | hmem
      · exact absurd hc hne
      · exact ih pq hmem hne
    · rw [if_neg hc, List.zip_cons_cons] at hmem
      rcases List.mem_cons.mp hmem with rfl | hmem
      · rfl
      · exact ih pq hmem hne

theorem isIntId_id {p : Param} (h : isIntId p = true) :
    ∃ n : Int, p.id = some (.vint n) := by
  unfold isIntId at h
  cases hid : p.id with
  | none => rw [hid] at h; simp at h
  | some v =>
    cases v with
    | vint n => exact ⟨n, rfl⟩
    | vbool b => rw [hid] at h; simp at h
    | vstr s => rw [hid] at h; simp at h
    | vnone => rw [hid] at h; simp at h

theorem all_isIntId_tail {p : Param} {rest : List Param}
    (h : (p :: rest).all isIntId = true) :
    isIntId p = true ∧ rest.all isIntId = true := by
  rw [List.all_cons] at h
  exact ⟨(Bool.and_eq_true _ _).mp h |>.1, (Bool.and_eq_true _ _).mp h |>.2⟩

theorem pyIdsOf_eq_filterMap {data : List Param} (h : data.all isIntId = true) :
    pyIdsOf data = some (data.filterMap idIntOf) := by
  induction data with
  | nil => rfl
  | cons p rest ih =>
    obtain ⟨hp, hrest⟩ := all_isIntId_tail h
    obtain ⟨n, hn⟩ := isIntId_id hp
    have h1 : p.id.bind pyToInt = some n := by rw [hn]; rfl
    have h2 : idIntOf p = some n := by unfold idIntOf; rw [hn]
    unfold pyIdsOf at ih ⊢
    rw [List.mapM_cons, h1, ih hrest, List.filterMap_cons_some h2]
    rfl

theorem ids_all_some {data : List Param} (h : data.all isIntId = true) :
    ∀ p ∈ data, p.id.isSome = true := by
  intro p hp
  obtain ⟨n, hn⟩ := isIntId_id (List.all_eq_true.mp h p hp)
  rw [hn]
  rfl

theorem sentinel_mem_ids {data : List Param} (h : data.any isSentinel = true) :
    ID_UNASSIGNED ∈ data.filterMap idIntOf := by
  obtain ⟨p, hp, hs⟩ := List.any_eq_true.mp h
  unfold isSentinel at hs
  have hid : p.id = some (.vint ID_UNASSIGNED) := of_decide_eq_true hs
  exact List.mem_filterMap.mpr ⟨p, hp, by rw [idIntOf, hid]⟩

theorem idIntOf_eq_some {p : Param} {n : Int} (h : p.id = some (.vint n)) :
    idIntOf p = some n := by
  unfold idIntOf
  rw [h]

theorem filterMap_numberPure_perm {data : List Param}
    (h : data.all isIntId = true) (last : Int) :
    ((numberPure data last).filterMap idIntOf).Perm
      ((data.filterMap idIntOf).filter (fun v => v != ID_UNASSIGNED) ++
        intRange last (countSent data)) := by
  induction data generalizing last with
  | nil => simp [numberPure, intRange, countSent]
  | cons p rest ih =>
    obtain ⟨hp, hrest⟩ := all_isIntId_tail h
    obtain ⟨n, hn⟩ := isIntId_id hp
    rw [numberPure]
    by_cases hc : p.id = some (.vint ID_UNASSIGNED)
    · rw [if_pos hc, countSent_cons_pos rest hc, intRange_succ]
      have hq : idIntOf { p with id := some (.vint last) } = some last := rfl
      have hpid : idIntOf p = some ID_UNASSIGNED := idIntOf_eq_some hc
      rw [List.filterMap_cons_some hq, List.filterMap_cons_some hpid,
        List.filter_cons_of_neg (by simp)]
      exact ((ih hrest (last + 1)).cons last).trans List.perm_middle.symm
    · rw [if_neg hc, countSent_cons_neg rest hc]
      have hne : (n != ID_UNASSIGNED) = true := by
        refine bne_iff_ne.mpr ?_
        intro hcon
        exact hc (by rw [hn, hcon])
      have hpid : idIntOf p = some n := idIntOf_eq_some hn
      rw [List.filterMap_cons_some hpid, List.filterMap_cons_some hpid]
      have hfc : List.filter (fun v => v != ID_UNASSIGNED)
            (n :: List.filterMap idIntOf rest) =
          n :: List.filter (fun v => v != ID_UNASSIGNED)
            (List.filterMap idIntOf rest) :=
        List.filter_cons_of_pos hne
      rw [hfc, List.cons_append]
      exact (ih hrest last).cons n

theorem mem_pyDedupGo :
    ∀ (fuel : Nat) (l : List Int), l.length ≤ fuel →
      ∀ x, (x ∈ pyDedupGo fuel l ↔ x ∈ l) := by
  intro fuel
  induction fuel with
  | zero =>
    intro l hl x
    have : l = [] := List.length_eq_zero.mp (Nat.le_zero.mp hl)
    subst this
    simp [pyDedupGo]
  | succ f ih =>
    intro l hl x
    cases l with
    | nil => simp [pyDedupGo]
    | cons a xs =>
      rw [pyDedupGo]
      have hlen : (xs.filter (fun y => y != a)).length ≤ f :=
        le_trans (List.length_filter_le _ _) (Nat.le_of_succ_le_succ hl)
      rw [List.mem_cons, ih _ hlen x, List.mem_filter, List.mem_cons]
      by_cases hxa : x = a
      · simp [hxa]
      · simp [hxa, bne_iff_ne]

theorem nodup_pyDedupGo :
    ∀ (fuel : Nat) (l : List Int), l.length ≤ fuel → (pyDedupGo fuel l).Nodup := by
  intro fuel
  induction fuel with
  | zero => intro l hl; simp [pyDedupGo]
  | succ f ih =>
    intro l hl
    cases l with
    | nil => simp [pyDedupGo]
    | cons a xs =>
      rw [pyDedupGo]
      have hlen : (xs.filter (fun y => y != a)).length ≤ f :=
        le_trans (List.length_filter_le _ _) (Nat.le_of_succ_le_succ hl)
      refine List.Nodup.cons ?_ (ih _ hlen)
      intro hmem
      have := (List.mem_filter.mp ((mem_pyDedupGo f _ hlen a).mp hmem)).2
      simp at this

theorem mem_pyDedup {l : List Int} {x : Int} : x ∈ pyDedup l ↔ x ∈ l :=
  mem_pyDedupGo l.length l le_rfl x

theorem nodup_pyDedup (l : List Int) : (pyDedup l).Nodup :=
  nodup_pyDedupGo l.length l le_rfl

theorem duplicateId_injective : Function.Injective Row.duplicateId := by
  intro a b h
  injection h

/-- The FAIL rows of `dupStep` contain `Duplicate ID v` exactly once when
`v` occurs more than once in the analysed counter, and never otherwise. -/
theorem count_dups (counts : List Int) (v : Int) :
    ((pyDedup counts).filter
        (fun w => decide (1 < counts.count w))).count v =
      if 1 < counts.count v then 1 else 0 := by
  have hnd : ((pyDedup counts).filter
      (fun w => decide (1 < counts.count w))).Nodup :=
    (nodup_pyDedup counts).filter _
  have hmem : v ∈ (pyDedup counts).filter
      (fun w => decide (1 < counts.count w)) ↔ 1 < counts.count v := by
    rw [List.mem_filter, mem_pyDedup]
    constructor
    · intro h
      exact of_decide_eq_true h.2
    · intro h
      exact ⟨List.count_pos_iff.mp (by omega), decide_eq_true h⟩
  by_cases h : 1 < counts.count v
  · rw [if_pos h]
    exact List.count_eq_one_of_mem hnd (hmem.mpr h)
  · rw [if_neg h]
    exact List.count_eq_zero.mpr (fun hm => h (hmem.mp hm))

theorem mem_assignedIds {orig new : List Param} {v : Int}
    (h : v ∈ assignedIds orig new) : ∃ q ∈ new, q.id = some (.vint v) := by
  unfold assignedIds at h
  rcases List.mem_filterMap.mp h with ⟨pq, hmem, hf⟩
  by_cases hc : pq.1.id = some (.vint ID_UNASSIGNED)
  · rw [if_pos hc] at hf
    refine ⟨pq.2, (List.of_mem_zip hmem).2, ?_⟩
    unfold idIntOf at hf
    cases hq : pq.2.id with
    | none => rw [hq] at hf; simp at hf
    | some w =>
      rw [hq] at hf
      cases w with
      | vint n => injection hf with hf; rw [hf]
      | vbool b => simp at hf
      | vstr s => simp at hf
      | vnone => simp at hf
  · rw [if_neg hc] at hf
    simp at hf

theorem autoNumberStep_pos {auto : Bool} {ids : List Int} (data : List Param)
    (h : auto = true ∧ ID_UNASSIGNED ∈ ids) {m : Int}
    (hm : pyMax (delSentinel ids) = some m) :
    autoNumberStep auto data ids =
      (numberLoop data (m + 1)).map fun r => (r.1, true, delSentinel ids) := by
  unfold autoNumberStep
  rw [if_pos h, hm]

theorem autoNumberStep_neg {auto : Bool} {ids : List Int} (data : List Param)
    (h : ¬(auto = true ∧ ID_UNASSIGNED ∈ ids)) :
    autoNumberStep auto data ids = .ok (data, false, ids) := by
  unfold autoNumberStep
  rw [if_neg h]

/-! ### Claim theorems -/

/-- Claim C1: for a registry whose record ids are all integers, with at
least one non-sentinel id and at least one sentinel id, enabling
auto-numbering replaces the sentinel ids in original record order with
consecutive values starting at (maximum non-sentinel id) + 1, so every
newly assigned id strictly exceeds every pre-existing non-sentinel id,
the new ids are strictly increasing in record order and pairwise
distinct, and non-sentinel records are left unchanged. -/
theorem autoNumber_fresh_strict_increasing (data : List Param)
    (h1 : data.all isIntId = true)
    (h2 : data.any isSentinel = true)
    (h3 : delSentinel (data.filterMap idIntOf) ≠ []) :
    ∃ m, pyMax (delSentinel (data.filterMap idIntOf)) = some m ∧
      autoNumberStep true data (data.filterMap idIntOf) =
        .ok (numberPure data (m + 1), true,
          delSentinel (data.filterMap idIntOf)) ∧
      assignedIds data (numberPure data (m + 1)) =
        intRange (m + 1) (countSent data) ∧
      (∀ x ∈ assignedIds data (numberPure data (m + 1)),
        ∀ y ∈ delSentinel (data.filterMap idIntOf), y < x) ∧
      (assignedIds data (numberPure data (m + 1))).Pairwise (· < ·) ∧
      (assignedIds data (numberPure data (m + 1))).Nodup ∧
      (∀ pq ∈ data.zip (numberPure data (m + 1)),
        pq.1.id ≠ some (.vint ID_UNASSIGNED) → pq.2 = pq.1) := by
  obtain ⟨m, hm⟩ := pyMax_of_ne_nil h3
  have hassigned := assigned_numberPure data (m + 1)
  refine ⟨m, hm, ?_, hassigned, ?_, ?_, ?_, fun pq hpq => numberPure_keep pq hpq⟩
  · rw [autoNumberStep_pos data ⟨rfl, sentinel_mem_ids h2⟩ hm,
      numberLoop_eq (ids_all_some h1) (m + 1)]
    rfl
  · intro x hx y hy
    rw [hassigned] at hx
    have hxr := mem_intRange.mp hx
    have hyr := pyMax_le hm y hy
    omega
  · rw [hassigned]
    exact pairwise_intRange (m + 1) (countSent data)
  · rw [hassigned]
    exact ((pairwise_intRange (m + 1) (countSent data)).imp
      (fun hlt => ne_of_lt hlt))

/-- Witness for C1 at the registry `[id 3, sentinel, sentinel]`: the
maximum non-sentinel id is 3 and the two sentinels receive 4 and 5. -/
theorem autoNumber_fresh_strict_increasing_witness :
    ∃ m, pyMax (delSentinel (regC1.filterMap idIntOf)) = some m ∧
      autoNumberStep true regC1 (regC1.filterMap idIntOf) =
        .ok (numberPure regC1 (m + 1), true,
          delSentinel (regC1.filterMap idIntOf)) ∧
      assignedIds regC1 (numberPure regC1 (m + 1)) =
        intRange (m + 1) (countSent regC1) ∧
      (∀ x ∈ assignedIds regC1 (numberPure regC1 (m + 1)),
        ∀ y ∈ delSentinel (regC1.filterMap idIntOf), y < x) ∧
      (assignedIds regC1 (numberPure regC1 (m + 1))).Pairwise (· < ·) ∧
      (assignedIds regC1 (numberPure regC1 (m + 1))).Nodup ∧
      (∀ pq ∈ regC1.zip (numberPure regC1 (m + 1)),
        pq.1.id ≠ some (.vint ID_UNASSIGNED) → pq.2 = pq.1) :=
  autoNumber_fresh_strict_increasing regC1 (by decide) (by decide) (by decide)

/-- Claim C10: under the same premises as C1, the set of newly assigned
ids is exactly the consecutive range from m+1 to m+k (m the maximum
pre-existing non-sentinel id, k the number of sentinel records), assigned
in original record order; when 255 falls inside that range some record
legitimately carries id 255 after the repair. -/
theorem autoNumber_range_exact (data : List Param)
    (h1 : data.all isIntId = true)
    (h2 : data.any isSentinel = true)
    (h3 : delSentinel (data.filterMap idIntOf) ≠ []) :
    ∃ m, pyMax (delSentinel (data.filterMap idIntOf)) = some m ∧
      autoNumberStep true data (data.filterMap idIntOf) =
        .ok (numberPure data (m + 1), true,
          delSentinel (data.filterMap idIntOf)) ∧
      assignedIds data (numberPure data (m + 1)) =
        intRange (m + 1) (countSent data) ∧
      ((m + 1 ≤ ID_UNASSIGNED ∧
          ID_UNASSIGNED < m + 1 + (countSent data : Int)) →
        ∃ q ∈ numberPure data (m + 1), q.id = some (.vint ID_UNASSIGNED)) := by
  obtain ⟨m, hm⟩ := pyMax_of_ne_nil h3
  have hassigned := assigned_numberPure data (m + 1)
  refine ⟨m, hm, ?_, hassigned, ?_⟩
  · rw [autoNumberStep_pos data ⟨rfl, sentinel_mem_ids h2⟩ hm,
      numberLoop_eq (ids_all_some h1) (m + 1)]
    rfl
  · intro hin
    have hmem : ID_UNASSIGNED ∈ assignedIds data (numberPure data (m + 1)) := by
      rw [hassigned]
      exact mem_intRange.mpr hin
    exact mem_assignedIds hmem

/-- Witness for C10 at the registry `[id 254, sentinel]`: the assigned
range is exactly `[255]`, so a record ends up carrying id 255. -/
theorem autoNumber_range_exact_witness :
    ∃ m, pyMax (delSentinel (regC10.filterMap idIntOf)) = some m ∧
      autoNumberStep true regC10 (regC10.filterMap idIntOf) =
        .ok (numberPure regC10 (m + 1), true,
          delSentinel (regC10.filterMap idIntOf)) ∧
      assignedIds regC10 (numberPure regC10 (m + 1)) =
        intRange (m + 1) (countSent regC10) ∧
      ((m + 1 ≤ ID_UNASSIGNED ∧
          ID_UNASSIGNED < m + 1 + (countSent regC10 : Int)) →
        ∃ q ∈ numberPure regC10 (m + 1), q.id = some (.vint ID_UNASSIGNED)) :=
  autoNumber_range_exact regC10 (by decide) (by decide) (by decide)

/-- Claim C3 (code bug demonstration): when auto-numbering is enabled and
every record id equals the sentinel 255, the run does not treat the empty
non-sentinel id set as maximum -1 and start at 0; deleting the sentinel
key empties the counter and `max()` raises an uncaught ValueError. -/
theorem allSentinel_autoNumber_crashes :
    runPipeline { rewrite_auto_number_id := true } false
      [{ id := some (.vint ID_UNASSIGNED), access := some {} },
       { id := some (.vint ID_UNASSIGNED), access := some {} }] =
      .error "ValueError: max() arg is an empty sequence" := rfl

/-- Claim C8 (code bug demonstration): a record with no fields at all, with
backfill disabled, crashes with an uncaught KeyError while formatting the
no-access failure message (`param['id']`, source line 109), so the expected
failure path produces no structured report line. -/
theorem missingFields_report_crash :
    runPipeline {} false [{}] = .error "KeyError: id" := rfl

/-- Counterexample to claim C7 as stated: the record id `"7"` is not
integer-typed, yet `int("7")` succeeds, so the invariant checker records no
failure at all and the run completes with exit status 0, contradicting
"records an overall failure plus one failure per offending record". -/
theorem stringId_no_failure_counterexample :
    isCleanParam { id := some (.vstr "7"), access := some defaultAccess } = false ∧
    runPipeline {} false
      [{ id := some (.vstr "7"), access := some defaultAccess }] =
      .ok { exitCode := 0, exitedAt := .completed, customRan := true,
            rows := [.duplicatePass],
            data := [{ id := some (.vstr "7"), access := some defaultAccess }],
            ids := [7], rewrite := false, persisted := false } :=
  ⟨rfl, rfl⟩

/-- Counterexample to claim C4 as stated: in immediate-exit mode, after the
first failing check (the no-access failure on the first record), the
duplicate-id check still runs and contributes its own failure row before
the process exits, so subsequent checks DO run after the first failing
check within the custom pass. -/
theorem immediateExit_later_checks_counterexample :
    runPipeline { immediate_exit := true } false
      [{ id := some (.vint 1), description := some (.vstr "d") },
       { id := some (.vint 1), access := some defaultAccess }] =
      .ok { exitCode := 1, exitedAt := .customImmediate, customRan := true,
            rows := [.noAccess (.vint 1) (.vstr "d"), .duplicateId 1],
            data := [{ id := some (.vint 1), description := some (.vstr "d") },
                     { id := some (.vint 1), access := some defaultAccess }],
            ids := [1, 1], rewrite := false, persisted := false } := rfl

theorem autoNumberStep_pos_none {auto : Bool} {ids : List Int}
    (data : List Param) (h : auto = true ∧ ID_UNASSIGNED ∈ ids)
    (hm : pyMax (delSentinel ids) = none) :
    autoNumberStep auto data ids =
      .error "ValueError: max() arg is an empty sequence" := by
  unfold autoNumberStep
  rw [if_pos h, hm]

/-- What `dupStep` emits, in terms of the analysed counter: one FAIL row
per value occurring more than once, and the single PASS row exactly when
no value does. -/
theorem dupStep_spec (counts : List Int) :
    (∀ v : Int, (dupStep counts true).1.count (Row.duplicateId v) =
        if 1 < counts.count v then 1 else 0) ∧
    ((∀ v : Int, counts.count v ≤ 1) →
      (dupStep counts true).1 = [Row.duplicatePass]) := by
  constructor
  · intro v
    unfold dupStep
    rw [List.count_append]
    have h1 : (((pyDedup counts).filter
          (fun w => decide (1 < counts.count w))).map Row.duplicateId).count
            (Row.duplicateId v) =
        ((pyDedup counts).filter
          (fun w => decide (1 < counts.count w))).count v :=
      List.count_map_of_injective _ _ duplicateId_injective v
    rw [h1, count_dups]
    have h2 : (if true && ((pyDedup counts).filter
          (fun w => decide (1 < counts.count w))).isEmpty then
            [Row.duplicatePass] else ([] : List Row)).count
          (Row.duplicateId v) = 0 := by
      split <;> simp [List.count_cons]
    rw [h2]
    omega
  · intro h
    unfold dupStep
    have hnil : (pyDedup counts).filter
        (fun w => decide (1 < counts.count w)) = [] := by
      rw [List.filter_eq_nil_iff]
      intro a _
      simp only [decide_eq_true_eq]
      have := h a
      omega
    rw [hnil]
    simp

/-- Claim C2: for a registry whose record ids are all integers, provided
auto-numbering returned normally (its only abnormal exit is the
all-sentinel ValueError recorded under C3), the duplicate check emits
exactly one `Duplicate ID v` failure for each value `v` whose occurrence
count in the post-repair registry exceeds one — with the sentinel entries
consumed by auto-numbering excluded from the analysis counter — and emits
exactly the single PASS entry when there are no duplicates.  The
`custom_pass` argument is `true` because an all-integer registry never
enters the recovery branch. -/
theorem duplicate_detection_exact (data data2 : List Param)
    (auto rw0 : Bool) (counts : List Int)
    (h1 : data.all isIntId = true)
    (hok : autoNumberStep auto data (data.filterMap idIntOf) =
      .ok (data2, rw0, counts)) :
    (∀ v : Int, (dupStep counts true).1.count (Row.duplicateId v) =
        if 1 < (data2.filterMap idIntOf).count v then 1 else 0) ∧
    ((∀ v : Int, (data2.filterMap idIntOf).count v ≤ 1) →
      (dupStep counts true).1 = [Row.duplicatePass]) := by
  by_cases hcond : auto = true ∧ ID_UNASSIGNED ∈ data.filterMap idIntOf
  · cases hmx : pyMax (delSentinel (data.filterMap idIntOf)) with
    | none =>
      rw [autoNumberStep_pos_none data hcond hmx] at hok
      exact absurd hok (by simp)
    | some m =>
      rw [autoNumberStep_pos data hcond hmx,
        numberLoop_eq (ids_all_some h1) (m + 1)] at hok
      simp only [Except.map] at hok
      injection hok with hok
      simp only [Prod.mk.injEq] at hok
      obtain ⟨hd2, _, hcounts⟩ := hok
      subst hd2
      subst hcounts
      have hpost : ∀ v : Int,
          ((numberPure data (m + 1)).filterMap idIntOf).count v =
            (delSentinel (data.filterMap idIntOf)).count v +
              (intRange (m + 1) (countSent data)).count v := by
        intro v
        rw [(filterMap_numberPure_perm h1 (m + 1)).count_eq v,
          List.count_append]
        rfl
      have hiff : ∀ v : Int,
          (1 < ((numberPure data (m + 1)).filterMap idIntOf).count v ↔
            1 < (delSentinel (data.filterMap idIntOf)).count v) := by
        intro v
        rw [hpost v, count_intRange]
        by_cases hin : m + 1 ≤ v ∧ v < m + 1 + (countSent data : Int)
        · rw [if_pos hin]
          have hzero : (delSentinel (data.filterMap idIntOf)).count v = 0 := by
            by_contra hne
            have hmem : v ∈ delSentinel (data.filterMap idIntOf) :=
              List.count_pos_iff.mp (by omega)
            have := pyMax_le hmx v hmem
            omega
          omega
        · rw [if_neg hin]
          omega
      obtain ⟨hs1, hs2⟩ := dupStep_spec (delSentinel (data.filterMap idIntOf))
      constructor
      · intro v
        rw [hs1 v]
        exact if_congr (hiff v).symm rfl rfl
      · intro h
        refine hs2 (fun v => ?_)
        have ha := h v
        have hb := hpost v
        omega
  · rw [autoNumberStep_neg data hcond] at hok
    injection hok with hok
    simp only [Prod.mk.injEq] at hok
    obtain ⟨hd2, _, hcounts⟩ := hok
    subst hd2
    subst hcounts
    exact dupStep_spec (data.filterMap idIntOf)

/-- Witness for C2 at a registry with a duplicated id 3 and auto-numbering
disabled: the counter is `[3, 3]` and one `Duplicate ID 3` row results. -/
theorem duplicate_detection_exact_witness :
    (∀ v : Int, (dupStep [3, 3] true).1.count (Row.duplicateId v) =
        if 1 < (regC2.filterMap idIntOf).count v then 1 else 0) ∧
    ((∀ v : Int, (regC2.filterMap idIntOf).count v ≤ 1) →
      (dupStep [3, 3] true).1 = [Row.duplicatePass]) :=
  duplicate_detection_exact regC2 regC2 false false [3, 3] (by decide) rfl

/-- Field-level description of every normal exit of the decision gate. -/
theorem finishRun_ok {flags : Flags} {sf : Bool} {rows : List Row}
    {data2 : List Param} {ids : List Int} {rw0 : Bool} {f : Final}
    (h : finishRun flags sf rows data2 ids rw0 = .ok f) :
    f.rows = rows ∧ f.data = data2 ∧ f.ids = ids ∧ f.rewrite = rw0 ∧
    f.customRan = true ∧
    (f.persisted = true ↔ (f.exitedAt = .completed ∧ f.rewrite = true)) ∧
    (f.exitedAt = .completed ↔ f.exitCode = 0) ∧
    (rows.any Row.isFail = true → flags.immediate_exit = true →
      f.exitedAt = .customImmediate ∧ f.exitCode = 1 ∧ f.persisted = false) := by
  unfold finishRun at h
  by_cases h1 : rows.any Row.isFail = true
  · rw [if_pos h1] at h
    by_cases h2 : flags.immediate_exit = true
    · rw [if_pos h2] at h
      injection h with h
      subst h
      exact ⟨rfl, rfl, rfl, rfl, rfl, by simp, by simp,
        fun _ _ => ⟨rfl, rfl, rfl⟩⟩
    · rw [if_neg h2] at h
      injection h with h
      subst h
      exact ⟨rfl, rfl, rfl, rfl, rfl, by simp, by simp,
        fun _ hi => absurd hi h2⟩
  · rw [if_neg h1] at h
    by_cases h3 : sf = true
    · rw [if_pos h3] at h
      injection h with h
      subst h
      exact ⟨rfl, rfl, rfl, rfl, rfl, by simp, by simp,
        fun hfail _ => absurd hfail h1⟩
    · rw [if_neg h3] at h
      cases hP : pyIdsOf data2 with
      | none =>
        rw [hP] at h
        exact absurd h (by simp)
      | some ids2 =>
        rw [hP] at h
        have h' : (if ids2.isEmpty = true then
            (Except.error "ValueError: max() arg is an empty sequence" :
              Except String Final)
          else
            .ok { exitCode := 0, exitedAt := .completed, customRan := true,
                  rows := rows, data := data2, ids := ids, rewrite := rw0,
                  persisted := rw0 }) = .ok f := h
        by_cases h4 : ids2.isEmpty = true
        · rw [if_pos h4] at h'
          exact absurd h' (by simp)
        · rw [if_neg h4] at h'
          injection h' with h'
          subst h'
          refine ⟨rfl, rfl, rfl, rfl, rfl, ?_, by simp,
            fun hfail _ => absurd hfail h1⟩
          constructor
          · intro hp
            exact ⟨rfl, hp⟩
          · intro hp
            exact hp.2

/-- Inversion on a normal run: either the schema-immediate exit fired, or
the access loop and auto-numbering returned normally and the decision gate
produced the outcome. -/
theorem runPipeline_ok_cases {flags : Flags} {sf : Bool} {data : List Param}
    {f : Final} (h : runPipeline flags sf data = .ok f) :
    f = { exitCode := 1, exitedAt := .schemaImmediate, customRan := false,
          rows := [], data := data, ids := [], rewrite := false,
          persisted := false } ∨
    ∃ a t, accessStep flags.rewrite_default_access data = .ok a ∧
      autoNumberStep flags.rewrite_auto_number_id a.1
        (idsStep a.1).2.2.1 = .ok t ∧
      finishRun flags sf
        (a.2.1 ++ (idsStep a.1).1 ++ (dupStep t.2.2 (idsStep a.1).2.2.2).1)
        t.1 (idsStep a.1).2.2.1 (a.2.2 || t.2.1) = .ok f := by
  unfold runPipeline at h
  by_cases hc : sf = true ∧ flags.immediate_exit = true
  · rw [if_pos hc] at h
    injection h with h
    exact Or.inl h.symm
  · rw [if_neg hc] at h
    cases hA : accessStep flags.rewrite_default_access data with
    | error e =>
      rw [hA] at h
      exact absurd h (by simp)
    | ok a =>
      rw [hA] at h
      have h1 : pipelineRest flags sf a.1 a.2.1 a.2.2 = .ok f := h
      unfold pipelineRest at h1
      cases hN : autoNumberStep flags.rewrite_auto_number_id a.1
          (idsStep a.1).2.2.1 with
      | error e =>
        rw [hN] at h1
        exact absurd h1 (by simp)
      | ok t =>
        rw [hN] at h1
        exact Or.inr ⟨a, t, rfl, hN, h1⟩

/-- Claim C5: the registry file is rewritten if and only if the run
completed successfully (exit status 0) and a repair set the rewrite flag;
every failing exit leaves the file untouched, so repairs applied in
memory before a failure are discarded. -/
theorem persistence_iff_pass_and_mutation (flags : Flags) (sf : Bool)
    (data : List Param) (f : Final)
    (h : runPipeline flags sf data = .ok f) :
    (f.persisted = true ↔ (f.exitedAt = .completed ∧ f.rewrite = true)) ∧
    (f.exitedAt = .completed ↔ f.exitCode = 0) ∧
    (f.exitCode = 1 → f.persisted = false) := by
  rcases runPipeline_ok_cases h with hf | ⟨a, t, _, _, hfin⟩
  · subst hf
    exact ⟨by simp, by simp, fun _ => rfl⟩
  · obtain ⟨_, _, _, _, _, hp, hcz, _⟩ := finishRun_ok hfin
    refine ⟨hp, hcz, ?_⟩
    intro h1
    cases hper : f.persisted with
    | false => rfl
    | true =>
      have hcml := (hp.mp hper).1
      have h0 := hcz.mp hcml
      rw [h1] at h0
      exact absurd h0 (by simp)

/-- Witness for C5: backfill enabled on a registry that also has a
duplicate id.  The backfill mutates the registry in memory (rewrite flag
true) but the duplicate failure makes the run exit 1, so nothing is
persisted: the repair is discarded. -/
theorem persistence_iff_pass_and_mutation_witness :
    (finalC5.persisted = true ↔
      (finalC5.exitedAt = .completed ∧ finalC5.rewrite = true)) ∧
    (finalC5.exitedAt = .completed ↔ finalC5.exitCode = 0) ∧
    (finalC5.exitCode = 1 → finalC5.persisted = false) :=
  persistence_iff_pass_and_mutation { rewrite_default_access := true } false
    regC5 finalC5 rfl

/-- Claim C4 (amended): in immediate-exit mode the process exits 1 at the
end of the first failing PASS, not at the first failing check: a schema
failure stops the run before any custom check, while any custom failure
exits 1 only after the whole custom pass has run (see the counterexample
for a later check running after the first failing one), with nothing
persisted. -/
theorem immediateExit_pass_granularity (flags : Flags) (data : List Param)
    (h : flags.immediate_exit = true) :
    runPipeline flags true data =
      .ok { exitCode := 1, exitedAt := .schemaImmediate, customRan := false,
            rows := [], data := data, ids := [], rewrite := false,
            persisted := false } ∧
    (∀ f : Final, runPipeline flags false data = .ok f →
      f.rows.any Row.isFail = true →
      f.exitCode = 1 ∧ f.exitedAt = .customImmediate ∧
        f.persisted = false) := by
  constructor
  · unfold runPipeline
    rw [if_pos ⟨rfl, h⟩]
  · intro f hf hfail
    rcases runPipeline_ok_cases hf with hf0 | ⟨a, t, _, _, hfin⟩
    · rw [hf0] at hfail
      simp at hfail
    · obtain ⟨hrows, _, _, _, _, _, _, himp⟩ := finishRun_ok hfin
      have hres := himp (by rw [← hrows]; exact hfail) h
      exact ⟨hres.2.1, hres.1, hres.2.2⟩

/-- Witness for the amended C4 at the two-record registry of the
counterexample: with immediate exit enabled, a schema failure produces the
schema-immediate exit, and the failing custom pass produces exit 1 at the
custom-immediate exit with nothing persisted. -/
theorem immediateExit_pass_granularity_witness :
    runPipeline { immediate_exit := true } true regC4 =
      .ok { exitCode := 1, exitedAt := .schemaImmediate, customRan := false,
            rows := [], data := regC4, ids := [], rewrite := false,
            persisted := false } ∧
    (∀ f : Final, runPipeline { immediate_exit := true } false regC4 = .ok f →
      f.rows.any Row.isFail = true →
      f.exitCode = 1 ∧ f.exitedAt = .customImmediate ∧
        f.persisted = false) :=
  immediateExit_pass_granularity { immediate_exit := true } regC4 rfl

theorem accessStep_cons_noacc {p : Param} {i d : PyVal} (bf : Bool)
    (rest : List Param) (hacc : p.access.isNone = true)
    (hid : p.id = some i) (hdesc : p.description = some d) :
    accessStep bf (p :: rest) =
      if bf then
        (accessStep bf rest).map fun r =>
          ({ p with access := some defaultAccess } :: r.1, r.2.1, true)
      else
        (accessStep bf rest).map fun r =>
          (p :: r.1, Row.noAccess i d :: r.2.1, r.2.2) := by
  rw [accessStep, if_pos hacc, hid, hdesc]

theorem accessStep_cons_acc {p : Param} (bf : Bool) (rest : List Param)
    (hacc : ¬p.access.isNone = true) :
    accessStep bf (p :: rest) =
      (accessStep bf rest).map fun r => (p :: r.1, r.2.1, r.2.2) := by
  rw [accessStep, if_neg hacc]

/-- Claim C6: on a registry where every record lacking `access` still has
`id` and `description` (otherwise the loop raises the KeyError recorded
under C8), the backfill pass assigns exactly `defaultAccess` to every
record lacking `access` and sets the rewrite flag exactly when one such
record exists, never touching records that already have `access`; with
backfill disabled the registry is unchanged and exactly one failure row
naming the record's id and description is emitted per offending record. -/
theorem backfill_default_access_exact (data : List Param)
    (h : data.all (fun p => !p.access.isNone ||
      (p.id.isSome && p.description.isSome)) = true) :
    accessStep true data =
      .ok (data.map fillDefault, [], data.any (fun p => p.access.isNone)) ∧
    accessStep false data =
      .ok (data,
        (data.filter (fun p => p.access.isNone)).map
          (fun p => Row.noAccess (p.id.getD .vnone)
            (p.description.getD .vnone)),
        false) := by
  induction data with
  | nil => exact ⟨rfl, rfl⟩
  | cons p rest ih =>
    rw [List.all_cons, Bool.and_eq_true] at h
    obtain ⟨hp, hrest⟩ := h
    obtain ⟨ih1, ih2⟩ := ih hrest
    by_cases hacc : p.access.isNone = true
    · have hpresent : p.id.isSome = true ∧ p.description.isSome = true := by
        rw [hacc] at hp
        simpa using hp
      obtain ⟨i, hid⟩ := Option.isSome_iff_exists.mp hpresent.1
      obtain ⟨d, hdesc⟩ := Option.isSome_iff_exists.mp hpresent.2
      constructor
      · rw [accessStep_cons_noacc true rest hacc hid hdesc, if_pos rfl, ih1]
        simp only [Except.map, List.map_cons, List.any_cons]
        rw [show fillDefault p = { p with access := some defaultAccess }
          from by unfold fillDefault; rw [if_pos hacc]]
        rw [hacc]
        rfl
      · rw [accessStep_cons_noacc false rest hacc hid hdesc,
          if_neg (by simp), ih2]
        simp only [Except.map]
        have hfc : (p :: rest).filter (fun q => q.access.isNone) =
            p :: rest.filter (fun q => q.access.isNone) :=
          List.filter_cons_of_pos hacc
        rw [hfc, List.map_cons, hid, hdesc]
        rfl
    · have hacc0 : p.access.isNone = false := by
        revert hacc
        cases p.access.isNone <;> simp
      constructor
      · rw [accessStep_cons_acc true rest hacc, ih1]
        simp only [Except.map, List.map_cons, List.any_cons]
        rw [show fillDefault p = p
          from by unfold fillDefault; rw [hacc0]; rfl]
        rw [hacc0]
        rfl
      · rw [accessStep_cons_acc false rest hacc, ih2]
        simp only [Except.map]
        have hfc : (p :: rest).filter (fun q => q.access.isNone) =
            rest.filter (fun q => q.access.isNone) :=
          List.filter_cons_of_neg hacc
        rw [hfc]

/-- Witness for C6: on `regC6` the backfill fills exactly the first record
and sets the rewrite flag; with backfill disabled exactly one failure row
naming id 1 and description "a" appears. -/
theorem backfill_default_access_exact_witness :
    accessStep true regC6 =
      .ok (regC6.map fillDefault, [],
        regC6.any (fun p => p.access.isNone)) ∧
    accessStep false regC6 =
      .ok (regC6,
        (regC6.filter (fun p => p.access.isNone)).map
          (fun p => Row.noAccess (p.id.getD .vnone)
            (p.description.getD .vnone)),
        false) :=
  backfill_default_access_exact regC6 (by decide)

theorem recoverLoop_eq (data : List Param) :
    recoverLoop data =
      ((data.filter (fun p => !isCleanParam p)).map
        (fun p => Row.invalidIdMember p.id p.name p.description),
       data.filter isCleanParam) := by
  induction data with
  | nil => rfl
  | cons p rest ih =>
    rw [recoverLoop]
    by_cases hc : isCleanParam p = true
    · have hf1 : (p :: rest).filter isCleanParam =
          p :: rest.filter isCleanParam := List.filter_cons_of_pos hc
      have hf2 : (p :: rest).filter (fun q => !isCleanParam q) =
          rest.filter (fun q => !isCleanParam q) :=
        List.filter_cons_of_neg (by simp [hc])
      rw [if_pos hc, ih, hf1, hf2]
    · have hf1 : (p :: rest).filter isCleanParam =
          rest.filter isCleanParam := List.filter_cons_of_neg hc
      have hf2 : (p :: rest).filter (fun q => !isCleanParam q) =
          p :: rest.filter (fun q => !isCleanParam q) :=
        List.filter_cons_of_pos (by simp [hc])
      rw [if_neg hc, ih, hf1, hf2, List.map_cons]

theorem pyIdsOf_isSome_of_clean (l : List Param)
    (h : ∀ p ∈ l, isCleanParam p = true) : (pyIdsOf l).isSome = true := by
  induction l with
  | nil => rfl
  | cons p rest ih =>
    have hp := h p (List.mem_cons_self p rest)
    have hrest := fun q hq => h q (List.mem_cons_of_mem p hq)
    have hbind : ∃ n, p.id.bind pyToInt = some n := by
      unfold isCleanParam at hp
      cases hid : p.id with
      | none => rw [hid] at hp; simp at hp
      | some v =>
        cases v with
        | vint n => exact ⟨n, rfl⟩
        | vbool b => exact ⟨if b then 1 else 0, rfl⟩
        | vstr s => rw [hid] at hp; simp at hp
        | vnone => rw [hid] at hp; simp at hp
    obtain ⟨n, hn⟩ := hbind
    obtain ⟨ids, hids⟩ := Option.isSome_iff_exists.mp (ih hrest)
    unfold pyIdsOf at hids ⊢
    rw [List.mapM_cons, hn, hids]
    rfl

theorem numberLoop_error_of_missing : ∀ (data : List Param) (last : Int),
    (∃ p ∈ data, p.id = none) →
      numberLoop data last = .error "KeyError: id" := by
  intro data
  induction data with
  | nil =>
    intro last h
    obtain ⟨p, hp, _⟩ := h
    simp at hp
  | cons p rest ih =>
    intro last h
    cases hid : p.id with
    | none => exact numberLoop_cons_none rest last hid
    | some v =>
      have hex : ∃ q ∈ rest, q.id = none := by
        obtain ⟨q, hq, hqid⟩ := h
        rcases List.mem_cons.mp hq with rfl | hq
        · rw [hid] at hqid
          exact absurd hqid (by simp)
        · exact ⟨q, hq, hqid⟩
      rw [numberLoop_cons_some rest last hid]
      by_cases hv : v = .vint ID_UNASSIGNED
      · rw [if_pos hv, ih (last + 1) hex]
        rfl
      · rw [if_neg hv, ih last hex]
        rfl

/-- Claim C7 (amended): when the id comprehension raises (some record id
missing or not int-convertible), the checker emits the header failure row
plus one failure row per record whose id is missing or not integer-typed,
partitions the registry into the clean subset of integer-typed records
(on which the id conversion then succeeds, so duplicate analysis runs on
the clean ids without crashing) with `custom_pass` false; auto-numbering,
however, iterates the FULL registry, and raises KeyError whenever some
record lacks an id key. -/
theorem invalidId_recovery_partition (data : List Param)
    (h : pyIdsOf data = none) :
    idsStep data =
      (Row.invalidIdHeader ::
        (data.filter (fun p => !isCleanParam p)).map
          (fun p => Row.invalidIdMember p.id p.name p.description),
       data.filter isCleanParam,
       (data.filter isCleanParam).filterMap (fun p => p.id.bind pyToInt),
       false) ∧
    (pyIdsOf (data.filter isCleanParam)).isSome = true ∧
    (∀ last : Int, (∃ p ∈ data, p.id = none) →
      numberLoop data last = .error "KeyError: id") := by
  refine ⟨?_, ?_, fun last hex => numberLoop_error_of_missing data last hex⟩
  · unfold idsStep
    rw [h]
    show (Row.invalidIdHeader :: (recoverLoop data).1, (recoverLoop data).2,
      (recoverLoop data).2.filterMap (fun p => p.id.bind pyToInt), false) = _
    rw [recoverLoop_eq]
  · exact pyIdsOf_isSome_of_clean _ (fun p hp => (List.mem_filter.mp hp).2)

/-- Witness for the amended C7 on `regC7`: one member failure row for the
id-less record, clean subset containing only the second record, clean ids
`[3]`, and auto-numbering crashing on the full registry. -/
theorem invalidId_recovery_partition_witness :
    idsStep regC7 =
      (Row.invalidIdHeader ::
        (regC7.filter (fun p => !isCleanParam p)).map
          (fun p => Row.invalidIdMember p.id p.name p.description),
       regC7.filter isCleanParam,
       (regC7.filter isCleanParam).filterMap (fun p => p.id.bind pyToInt),
       false) ∧
    (pyIdsOf (regC7.filter isCleanParam)).isSome = true ∧
    (∀ last : Int, (∃ p ∈ regC7, p.id = none) →
      numberLoop regC7 last = .error "KeyError: id") :=
  invalidId_recovery_partition regC7 rfl

/-- Claim C9: a CSV access cell is empty when the direction is absent or
false under its interface; otherwise (with the `dry` sub-dictionary
present, else the code raises the KeyError noted in `accessCell`) the
cell is composed from the DRY sub-dictionary's option/auth flags only —
"Opt " prefix when the direction's option flag is true, "Auth" suffix
when its auth flag is true, and the literal "Yes" when neither is set —
for wet cells just as for dry ones. -/
theorem accessCell_encoding (p : Param) (iface : Iface) (dir : Dir) :
    (¬dirFlag (ifaceSub p iface) dir = some true →
      accessCell p iface dir = some "") ∧
    (∀ d : IfaceAccess, dirFlag (ifaceSub p iface) dir = some true →
      p.access.bind Access.dry = some d →
      accessCell p iface dir =
        some (if (dirOption d dir).getD false || (dirAuth d dir).getD false
          then (if (dirOption d dir).getD false then "Opt " else "") ++
            (if (dirAuth d dir).getD false then "Auth" else "")
          else "Yes")) := by
  constructor
  · intro h
    unfold accessCell
    rw [if_neg h]
  · intro d hflag hdry
    have hcell : accessCell p iface dir =
        some (if (((if (dirOption d dir).getD false then "Opt " else "") ++
            (if (dirAuth d dir).getD false then "Auth" else "")).isEmpty)
          then "Yes"
          else ((if (dirOption d dir).getD false then "Opt " else "") ++
            (if (dirAuth d dir).getD false then "Auth" else ""))) := by
      unfold accessCell
      rw [if_pos hflag, hdry]
      rfl
    rw [hcell]
    cases ho : (dirOption d dir).getD false <;>
      cases ha : (dirAuth d dir).getD false <;> rfl

/-- Witness for C9: the wet-read cell of `paramC9` is "Auth", composed
from the dry sub-dictionary's auth flag. -/
theorem accessCell_encoding_witness :
    accessCell paramC9 Iface.wet Dir.read = some "Auth" := by
  have h := (accessCell_encoding paramC9 Iface.wet Dir.read).2
    { read := some true, read_auth := some true } rfl rfl
  exact h

end ValidateParams
